import Mathlib

/-!
Shallow embedding of the `World` coordinator of `actix-remote`
(`src/world.rs`, message types from `src/msgs.rs`), and proofs of the
spec's claims about it.

Rust `HashMap`s are modelled as association lists with replace-on-insert
semantics (`insertAL`); `HashSet<String>` as a duplicate-free `List String`
(`insertSet`). Actor addresses (`Addr<_, NetworkNode>`, worker addresses,
`RecipientProxy` addresses, handler `Arc`s) are opaque at the coordinator:
they are modelled as `Nat` identifiers, fresh ones drawn from counters.
-/

namespace ActixRemote

/-- Rust `HashMap` lookup on an association list. -/
def lookupAL {α β : Type} [DecidableEq α] : List (α × β) → α → Option β
  | [], _ => none
  | (k, v) :: rest, k' => if k' = k then some v else lookupAL rest k'

/-- Rust `HashMap::remove`: drop the binding for `k` (no-op when absent). -/
def eraseAL {α β : Type} [DecidableEq α] (l : List (α × β)) (k : α) : List (α × β) :=
  l.filter (fun p => decide (p.1 ≠ k))

/-- Rust `HashMap::insert`: bind `k` to `v`, replacing any previous binding. -/
def insertAL {α β : Type} [DecidableEq α] (l : List (α × β)) (k : α) (v : β) :
    List (α × β) :=
  (k, v) :: eraseAL l k

/-- Number of bindings an association list holds for key `k`. -/
def countKey {α β : Type} [DecidableEq α] (l : List (α × β)) (k : α) : Nat :=
  (l.filter (fun p => decide (p.1 = k))).length

/-- Rust `HashSet::insert` on a list-modelled set of strings. -/
def insertSet (s : List String) (x : String) : List String :=
  if x ∈ s then s else x :: s

theorem lookupAL_eraseAL_ne {α β : Type} [DecidableEq α] (l : List (α × β))
    (k k' : α) (h : k' ≠ k) : lookupAL (eraseAL l k) k' = lookupAL l k' := by
  induction l with
  | nil => rfl
  | cons p rest ih =>
    cases p with
    | mk a b =>
      by_cases hak : a = k
      · subst hak
        have : eraseAL ((a, b) :: rest) a = eraseAL rest a := by
          simp [eraseAL]
        rw [this, ih, lookupAL, if_neg h]
      · have : eraseAL ((a, b) :: rest) k = (a, b) :: eraseAL rest k := by
          simp [eraseAL, hak]
        rw [this]
        by_cases hka : k' = a
        · simp [lookupAL, hka]
        · simp only [lookupAL, if_neg hka]
          exact ih

theorem lookupAL_insertAL_self {α β : Type} [DecidableEq α] (l : List (α × β))
    (k : α) (v : β) : lookupAL (insertAL l k v) k = some v := by
  simp [insertAL, lookupAL]

theorem lookupAL_insertAL_ne {α β : Type} [DecidableEq α] (l : List (α × β))
    (k k' : α) (v : β) (h : k' ≠ k) :
    lookupAL (insertAL l k v) k' = lookupAL l k' := by
  simp only [insertAL, lookupAL, if_neg h]
  exact lookupAL_eraseAL_ne l k k' h

theorem eraseAL_of_lookup_none {α β : Type} [DecidableEq α] (l : List (α × β))
    (k : α) (h : lookupAL l k = none) : eraseAL l k = l := by
  induction l with
  | nil => rfl
  | cons p rest ih =>
    cases p with
    | mk a b =>
      simp only [lookupAL] at h
      by_cases hka : k = a
      · simp [hka] at h
      · simp only [if_neg hka] at h
        have hne : a ≠ k := fun hc => hka hc.symm
        have h1 : eraseAL ((a, b) :: rest) k = (a, b) :: eraseAL rest k := by
          simp [eraseAL, hne]
        rw [h1, ih h]

theorem countKey_eraseAL_self {α β : Type} [DecidableEq α] (l : List (α × β))
    (k : α) : countKey (eraseAL l k) k = 0 := by
  simp only [countKey, eraseAL, List.length_eq_zero, List.filter_filter]
  apply List.filter_eq_nil_iff.2
  intro p _
  by_cases h : p.1 = k <;> simp [h]

theorem countKey_insertAL_self {α β : Type} [DecidableEq α] (l : List (α × β))
    (k : α) (v : β) : countKey (insertAL l k v) k = 1 := by
  have hz := countKey_eraseAL_self l k
  simp only [countKey, insertAL] at *
  rw [List.filter_cons]
  simp only [decide_True, if_true, List.length_cons]
  omega

theorem mem_insertSet {s : List String} {x y : String} :
    y ∈ insertSet s x ↔ y ∈ s ∨ y = x := by
  unfold insertSet
  by_cases h : x ∈ s
  · simp only [if_pos h]
    constructor
    · exact fun hy => Or.inl hy
    · rintro (hy | rfl)
      · exact hy
      · exact h
  · simp only [if_neg h, List.mem_cons]
    tauto

/-! ## Data model (`src/world.rs` lines 24-40, message structs from usage) -/

/-- The runtime type tag a `Box<Any>` value carries in `World.recipients`.
`get_recipient::<M>` stores `Box::new(addr.clone())` where
`addr : Addr<Unsync, RecipientProxy<M>>` (world.rs line 113), and later
downcasts to the pair type
`(Addr<Unsync, RecipientProxy<M>>, Addr<Syn, RecipientProxy<M>>)`
(world.rs lines 103-104). The two Rust types are distinct for every `M`,
so they are distinct constructors here; `sid` is the structural identity
of the message type `M` the address was created for. -/
inductive RtType
  | unsyncAddr (sid : Nat)
  | pairAddr (sid : Nat)
deriving DecidableEq

/-- A `Box<Any>` value: its runtime type tag plus the identity of the
`RecipientProxy` actor the boxed address points at. -/
structure AnyBox where
  rty : RtType
  proxyId : Nat
deriving DecidableEq

/-- Model of `struct Proxy` (world.rs lines 24-27): the type-erased proxy address and
the `Recipient<Unsync, TypeSupported>` service channel, both pointing at the
same `RecipientProxy` actor (world.rs lines 112-114). `service` is the id of
the proxy actor the channel delivers to. -/
structure ProxyR where
  addr : AnyBox
  service : Nat
deriving DecidableEq

/-- A Rust remote message type `M` as seen by `get_recipient`: `tid` is the
string `M::type_id()` returns, `sid` the structural identity of `M` (two
distinct Rust types have distinct `sid`). -/
structure MsgType where
  tid : String
  sid : Nat
deriving DecidableEq

/-- Model of `msgs::NodeSupportedTypes` (msgs.rs lines 26-30). -/
structure NodeSupportedTypes where
  node : String
  types : List String
deriving DecidableEq

/-- Model of `msgs::TypeSupported` as constructed by the `NodeSupportedTypes` handler
(world.rs lines 270-275); `node` is the node-handle id sent along. -/
structure TypeSupported where
  type_id : String
  node_id : String
  node : Nat
deriving DecidableEq

/-- Model of `msgs::ProvideRecipient` as used in world.rs (lines 126-127, 201-207):
a type id plus a type-erased `Arc<RemoteMessageHandler>`, the latter an
opaque id here. -/
structure ProvideRecipient where
  type_id : String
  handler : Nat
deriving DecidableEq

/-- Model of `struct World` (world.rs lines 29-40). Maps are association lists;
actor addresses and listeners are opaque ids. The fields after `exit` are
model bookkeeping, not Rust fields: `nextNodeId`/`nextProxyId` draw fresh
ids for spawned `NetworkNode`/`RecipientProxy` actors, `pending` is the set
of worker ids whose `StopWorker` send (world.rs line 139) has a completion
continuation not yet run, and `terminating` records that
`stop_system_with_delay` has been called (process exit scheduled). -/
structure World where
  addr : String
  addrs : List (String × String)
  nodes : List (String × Nat)
  types : List (String × List String)
  sockets : List (Nat × Nat)
  wid : Nat
  workers : List (Nat × Nat)
  handlers : List (String × Nat)
  recipients : List (String × ProxyR)
  exit : Bool
  nextNodeId : Nat
  nextProxyId : Nat
  pending : List Nat
  terminating : Bool
deriving DecidableEq

/-! ## Operations translated from `src/world.rs` -/

/-- Model of `Any::downcast_ref::<T>` on a stored box: succeeds exactly when the
stored runtime type equals the requested one, yielding the boxed value. -/
def downcast_ref (b : AnyBox) (t : RtType) : Option Nat :=
  if b.rty = t then some b.proxyId else none

/-- The slot-creation tail of `World::get_recipient` (world.rs lines
110-116): spawn a fresh `RecipientProxy`, store
`Proxy { addr: Box::new(addr.clone()), service: addr.clone().recipient() }`
under `M::type_id()`, and return a recipient backed by the new proxy. -/
def spawnProxy (w : World) (M : MsgType) : World × Nat :=
  let pid := w.nextProxyId
  ({ w with nextProxyId := pid + 1,
            recipients := insertAL w.recipients M.tid
              ⟨⟨RtType.unsyncAddr M.sid, pid⟩, pid⟩ }, pid)

/-- Model of `World::get_recipient` (world.rs lines 98-117). Returns the updated
world and the id of the `RecipientProxy` actor backing the returned
`Recipient`. The memoization hit requires the stored `Box<Any>` to downcast
to the *pair* type `(Addr<Unsync, _>, Addr<Syn, _>)` (lines 102-108);
on a miss or failed downcast it falls through to `spawnProxy`. -/
def get_recipient (w : World) (M : MsgType) : World × Nat :=
  match lookupAL w.recipients M.tid with
  | some info =>
    match downcast_ref info.addr (RtType.pairAddr M.sid) with
    | some pid => (w, pid)
    | none => spawnProxy w M
  | none => spawnProxy w M

/-- Model of `Handler<msgs::ProvideRecipient>` (world.rs lines 198-209): forward the
message to every registered worker, then store the handler. The second
component lists the `do_send` targets (worker id, message). -/
def handleProvideRecipient (w : World) (m : ProvideRecipient) :
    World × List (Nat × ProvideRecipient) :=
  ({ w with handlers := insertAL w.handlers m.type_id m.handler },
   w.workers.map (fun p => (p.1, m)))

/-- The worker spawned by the connection-accept stream handler: its
connection id and the `self.handlers.clone()` it is handed at spawn
(world.rs lines 216-217). -/
structure WorkerSpawn where
  wid : Nat
  handlersAtSpawn : List (String × Nat)
deriving DecidableEq

/-- Model of `StreamHandler<(TcpStream, SocketAddr), io::Error>` (world.rs lines
212-220): increment `wid`, spawn a `NetworkWorker` with the current handler
map, register it under the new id. The worker's address is modelled by its
connection id. -/
def handleConnection (w : World) : World × WorkerSpawn :=
  let wid := w.wid + 1
  ({ w with wid := wid, workers := insertAL w.workers wid wid },
   ⟨wid, w.handlers⟩)

/-- Model of `Handler<msgs::WorkerDisconnected>` (world.rs lines 223-229):
`self.workers.remove(&msg.0)`. -/
def handleWorkerDisconnected (w : World) (c : Nat) : World :=
  { w with workers := eraseAL w.workers c }

/-- What the `NodeConnected` handler did: sent `ReconnectNode` to an
existing handle, or spawned a new supervised `NetworkNode`. -/
inductive NodeEffect
  | reconnect (handle : Nat)
  | spawned (handle : Nat)
deriving DecidableEq

/-- Model of `Handler<msgs::NodeConnected>` (world.rs lines 232-249): if a handle for
the identity exists, `do_send(ReconnectNode)` to it and return; otherwise
spawn a supervised `NetworkNode` and store its handle. -/
def handleNodeConnected (w : World) (n : String) : World × NodeEffect :=
  match lookupAL w.nodes n with
  | some h => (w, NodeEffect.reconnect h)
  | none =>
    let h := w.nextNodeId
    ({ w with nextNodeId := h + 1, nodes := insertAL w.nodes n h },
     NodeEffect.spawned h)

/-- One iteration of the registry loop of the `NodeSupportedTypes` handler
(world.rs lines 259-264): ensure a supporter set exists for `tp`, then
insert `node` into it. -/
def addSupport (ts : List (String × List String)) (node tp : String) :
    List (String × List String) :=
  insertAL ts tp (insertSet ((lookupAL ts tp).getD []) node)

/-- The registry loop of the `NodeSupportedTypes` handler (world.rs lines
259-264): record every announced `(node, type)` pair; no other field of
`World` is touched. -/
def supportersUpdate (w : World) (m : NodeSupportedTypes) : World :=
  { w with types := m.types.foldl (fun ts tp => addSupport ts m.node tp) w.types }

/-- Model of `Handler<msgs::NodeSupportedTypes>` (world.rs lines 254-280): record
every `(node, type)` pair in the registry; then, if a node handle exists for
`msg.node`, `do_send` a `TypeSupported` to each announced type's recipient
proxy service (skipping types without a slot). The second component lists
the deliveries as (target proxy service id, message). The registry loop
leaves `nodes` and `recipients` untouched, so the lookups read `w`'s. -/
def handleNodeSupportedTypes (w : World) (m : NodeSupportedTypes) :
    World × List (Nat × TypeSupported) :=
  match lookupAL w.nodes m.node with
  | none => (supportersUpdate w m, [])
  | some nh =>
    (supportersUpdate w m, m.types.filterMap (fun tp =>
      (lookupAL w.recipients tp).map (fun p => (p.service, ⟨tp, m.node, nh⟩))))

/-- Model of `World::stop` (world.rs lines 130-151): a one-shot latch on `exit`;
with no workers registered, call `stop_system_with_delay` at once
(`terminating := true`); otherwise send `StopWorker` to every registered
worker, leaving one completion continuation pending per worker. -/
def stop (w : World) : World :=
  if w.exit then w
  else if w.workers = [] then { w with exit := true, terminating := true }
  else { w with exit := true, pending := w.workers.map Prod.fst }

/-- The completion continuation of one `StopWorker` send (world.rs lines
140-147), run when worker `c`'s send future resolves: remove `c` from the
worker map and, if the map is now empty, stop the context and call
`stop_system_with_delay`. Runs once per sent `StopWorker`, which the
`pending` guard enforces. -/
def stopConfirm (w : World) (c : Nat) : World :=
  if c ∈ w.pending then
    if eraseAL w.workers c = [] then
      { w with pending := w.pending.erase c, workers := eraseAL w.workers c,
               terminating := true }
    else
      { w with pending := w.pending.erase c, workers := eraseAL w.workers c }
  else w

/-- Outcome of one `utils::tcp_listener(addr, 256)` attempt inside
`World::bind` (world.rs line 68): a bound listener identified by its local
address, or an `io::Error` (its message). -/
inductive BindOutcome
  | ok (localAddr : Nat)
  | fail (e : String)
deriving DecidableEq

/-- Whether a bind attempt succeeded. -/
def BindOutcome.isOk : BindOutcome → Bool
  | .ok _ => true
  | .fail _ => false

/-- One iteration of the `for addr in addr.to_socket_addrs()?` loop of
`World::bind` (world.rs lines 67-75) over the accumulator
(self, last error, success flag): a bound listener is stored in `sockets`
under its local address and sets the success flag; an error is remembered
as the last error. -/
def bindStep (acc : World × Option String × Bool) (o : BindOutcome) :
    World × Option String × Bool :=
  match o with
  | .ok la => ({ acc.1 with sockets := insertAL acc.1.sockets la la }, acc.2.1, true)
  | .fail e => (acc.1, some e, acc.2.2)

/-- The result computation after the bind loop (world.rs lines 77-85):
`Ok(self)` when the success flag is set, otherwise the recorded error, or
the generic "Can not bind to address." error when none was recorded. -/
def bindFinish (r : World × Option String × Bool) : Except String World :=
  if r.2.2 then Except.ok r.1
  else
    match r.2.1 with
    | some e => Except.error e
    | none => Except.error "Can not bind to address."

/-- Model of `World::bind` (world.rs lines 64-86), with the per-address listener
outcomes given as a list: fold the loop body over the outcomes starting
from (self, no error, no success), then apply the result computation. -/
def bind (w : World) (outcomes : List BindOutcome) : Except String World :=
  bindFinish (outcomes.foldl bindStep (w, none, false))

/-- The last `io::Error` the bind loop would record for these outcomes. -/
def lastBindError : List BindOutcome → Option String
  | [] => none
  | o :: rest =>
    match lastBindError rest with
    | some e => some e
    | none => match o with
              | .fail e => some e
              | .ok _ => none

/-! ## Event-level semantics -/

/-- One message arriving at the `World` actor's inbox (or, for
`stopConfirm`, one spawned drain continuation running in its context). -/
inductive Event
  | connect
  | workerDisc (c : Nat)
  | nodeConn (n : String)
  | nodeTypes (m : NodeSupportedTypes)
  | provideRecipient (m : ProvideRecipient)
  | getRecipient (M : MsgType)
  | signal
  | stopConfirm (c : Nat)

/-- The state transition of one event, discarding the sends it caused. -/
def step (w : World) : Event → World
  | .connect => (handleConnection w).1
  | .workerDisc c => handleWorkerDisconnected w c
  | .nodeConn n => (handleNodeConnected w n).1
  | .nodeTypes m => (handleNodeSupportedTypes w m).1
  | .provideRecipient m => (handleProvideRecipient w m).1
  | .getRecipient M => (get_recipient w M).1
  | .signal => stop w
  | .stopConfirm c => stopConfirm w c

/-- The connection id an event assigns: only an accepted connection
assigns one, namely `wid + 1` (world.rs lines 215-218). -/
def assignedId (w : World) : Event → Option Nat
  | Event.connect => some (w.wid + 1)
  | _ => none

/-- The connection ids assigned along a trace, in order of assignment. -/
def traceIds (w : World) : List Event → List Nat
  | [] => []
  | e :: es => (assignedId w e).toList ++ traceIds (step w e) es

/-- The supporter set recorded for type id `tp`. -/
def supporters (w : World) (tp : String) : List String :=
  (lookupAL w.types tp).getD []

/-- Folding a list of `NodeSupportedTypes` announcements through the
handler. -/
def applyAnnouncements (w : World) (anns : List NodeSupportedTypes) : World :=
  anns.foldl (fun w a => (handleNodeSupportedTypes w a).1) w

/-- Running the drain continuations for the worker ids in `cs`, in order. -/
def processConfirms (w : World) (cs : List Nat) : World :=
  cs.foldl stopConfirm w

/-- A freshly constructed `World` (the state `World::new` builds at
world.rs lines 48-57, before `bind`). -/
def world0 : World :=
  { addr := "127.0.0.1:7654", addrs := [], nodes := [], types := [],
    sockets := [], wid := 0, workers := [], handlers := [], recipients := [],
    exit := false, nextNodeId := 0, nextProxyId := 0, pending := [],
    terminating := false }

/-- A world whose recipient map holds, under type id `"T"`, a slot whose
stored proxy was created for the message type of structural identity `0`
(the proxy actor has id `5`). -/
def mismatchWorld : World :=
  { world0 with recipients := [("T", ⟨⟨RtType.unsyncAddr 0, 5⟩, 5⟩)],
                nextProxyId := 6 }

/-- A world with one inbound worker registered under connection id `1`. -/
def drainWorld : World :=
  { world0 with wid := 1, workers := [(1, 1)] }

/-! ## Helper lemmas -/

theorem countKey_pos_of_lookup_some {α β : Type} [DecidableEq α]
    {l : List (α × β)} {k : α} {v : β} (h : lookupAL l k = some v) :
    1 ≤ countKey l k := by
  induction l with
  | nil => simp [lookupAL] at h
  | cons p rest ih =>
    cases p with
    | mk a b =>
      simp only [lookupAL] at h
      simp only [countKey, List.filter_cons]
      by_cases hak : a = k
      · simp only [hak]
        simp
      · have hka : ¬(k = a) := fun hc => hak hc.symm
        simp only [if_neg hka] at h
        have hd : (decide ((a, b).1 = k)) = false := by
          simp [hak]
        rw [hd]
        simp only [Bool.false_eq_true, if_false]
        exact ih h

/-- The `NodeConnected` handler, hit case (world.rs lines 236-239). -/
theorem handleNodeConnected_hit (w : World) (n : String) (hd : Nat)
    (h : lookupAL w.nodes n = some hd) :
    handleNodeConnected w n = (w, NodeEffect.reconnect hd) := by
  unfold handleNodeConnected
  rw [h]

/-- The `NodeConnected` handler, miss case (world.rs lines 241-248). -/
theorem handleNodeConnected_miss (w : World) (n : String)
    (h : lookupAL w.nodes n = none) :
    handleNodeConnected w n =
      ({ w with nextNodeId := w.nextNodeId + 1,
                nodes := insertAL w.nodes n w.nextNodeId },
       NodeEffect.spawned w.nextNodeId) := by
  unfold handleNodeConnected
  rw [h]

/-! ## C10: spurious `WorkerDisconnected` is a no-op -/

/-- C10: for every `World` state and every connection id `c` that is not a
key of the worker map, handling `WorkerDisconnected(c)` leaves the entire
`World` state unchanged: duplicate or spurious disconnect notifications for
an already-removed worker are harmless no-ops. -/
theorem workerDisconnected_frame (w : World) (c : Nat)
    (h : lookupAL w.workers c = none) :
    handleWorkerDisconnected w c = w := by
  unfold handleWorkerDisconnected
  rw [eraseAL_of_lookup_none _ _ h]

/-- C10 witness: `WorkerDisconnected(5)` on the fresh world (no workers)
leaves it unchanged. -/
theorem workerDisconnected_frame_witness :
    handleWorkerDisconnected world0 5 = world0 :=
  workerDisconnected_frame world0 5 (by decide)

/-! ## C4: idempotent reconnection -/

/-- C4: delivering `NodeConnected(n)` twice (from any state holding at most
one handle for `n`) leaves exactly one live node handle stored for `n`; the
second delivery changes nothing and sends `ReconnectNode` to the handle the
first delivery left stored, rather than spawning a second actor. -/
theorem idempotent_reconnection (w : World) (n : String)
    (h : countKey w.nodes n ≤ 1) :
    countKey ((handleNodeConnected w n).1).nodes n = 1 ∧
    (handleNodeConnected ((handleNodeConnected w n).1) n).1
      = (handleNodeConnected w n).1 ∧
    ∃ hd, (handleNodeConnected ((handleNodeConnected w n).1) n).2
            = NodeEffect.reconnect hd ∧
          lookupAL ((handleNodeConnected w n).1).nodes n = some hd := by
  cases hl : lookupAL w.nodes n with
  | some h0 =>
    have hone : countKey w.nodes n = 1 :=
      Nat.le_antisymm h (countKey_pos_of_lookup_some hl)
    have h1 := handleNodeConnected_hit w n h0 hl
    rw [h1]
    exact ⟨hone, by rw [h1], h0, by rw [h1], hl⟩
  | none =>
    have h1 := handleNodeConnected_miss w n hl
    rw [h1]
    have hl1 : lookupAL (insertAL w.nodes n w.nextNodeId) n
        = some w.nextNodeId := lookupAL_insertAL_self _ _ _
    have h2 := handleNodeConnected_hit
      ({ w with nextNodeId := w.nextNodeId + 1,
                nodes := insertAL w.nodes n w.nextNodeId })
      n w.nextNodeId hl1
    rw [h2]
    exact ⟨countKey_insertAL_self _ _ _, rfl, w.nextNodeId, rfl, hl1⟩

/-- C4 witness: two `NodeConnected("peer-a")` deliveries on the fresh world
leave exactly one handle for `"peer-a"`. -/
theorem idempotent_reconnection_witness :
    countKey ((handleNodeConnected world0 "peer-a").1).nodes "peer-a" = 1 :=
  (idempotent_reconnection world0 "peer-a" (by decide)).1

/-! ## C8: handler registration broadcast -/

/-- C8: registering a recipient handler stores it as the handler entry for
its type id, sends it to every inbound worker currently registered in the
worker map, and a worker spawned after the registration is handed the
then-current handler map (containing the new entry) at spawn time. -/
theorem handler_broadcast (w : World) (m : ProvideRecipient) :
    lookupAL ((handleProvideRecipient w m).1).handlers m.type_id
      = some m.handler ∧
    (handleProvideRecipient w m).2 = w.workers.map (fun p => (p.1, m)) ∧
    lookupAL ((handleConnection ((handleProvideRecipient w m).1)).2).handlersAtSpawn
        m.type_id = some m.handler := by
  refine ⟨?_, rfl, ?_⟩
  · exact lookupAL_insertAL_self _ _ _
  · show lookupAL (insertAL w.handlers m.type_id m.handler) m.type_id = some m.handler
    exact lookupAL_insertAL_self _ _ _

/-! ## C2, C3: recipient slots -/

theorem mem_of_lookupAL_some {α β : Type} [DecidableEq α]
    {l : List (α × β)} {k : α} {v : β} (h : lookupAL l k = some v) :
    (k, v) ∈ l := by
  induction l with
  | nil => simp [lookupAL] at h
  | cons p rest ih =>
    cases p with
    | mk a b =>
      simp only [lookupAL] at h
      by_cases hka : k = a
      · rw [if_pos hka] at h
        rw [hka, ← Option.some_inj.1 h]
        exact List.mem_cons_self _ _
      · rw [if_neg hka] at h
        exact List.mem_cons_of_mem _ (ih h)

/-- Every `Box<Any>` the code ever stores in `recipients` boxes a lone
`Addr<Unsync, RecipientProxy<M>>` (world.rs line 113 is the only store). -/
def UnsyncStored (w : World) : Prop :=
  ∀ p ∈ w.recipients, ∃ sid pid, p.2.addr = AnyBox.mk (RtType.unsyncAddr sid) pid

/-- On any world whose stored boxes are what the code stores, the
memoization lookup of `get_recipient` (a downcast to the *pair* type,
world.rs lines 103-104) always fails, so every call takes the spawn path. -/
theorem get_recipient_eq_spawn (w : World) (M : MsgType)
    (h : UnsyncStored w) : get_recipient w M = spawnProxy w M := by
  unfold get_recipient
  cases hl : lookupAL w.recipients M.tid with
  | none => rfl
  | some info =>
    obtain ⟨sid, pid, hbox⟩ := h _ (mem_of_lookupAL_some hl)
    have hdc : downcast_ref info.addr (RtType.pairAddr M.sid) = none := by
      rw [hbox]
      simp [downcast_ref]
    show (match downcast_ref info.addr (RtType.pairAddr M.sid) with
          | some pid => (w, pid)
          | none => spawnProxy w M) = spawnProxy w M
    rw [hdc]

/-- Lemma: `spawnProxy` stores only unsync-boxed addresses. -/
theorem spawnProxy_unsyncStored (w : World) (M : MsgType)
    (h : UnsyncStored w) : UnsyncStored ((spawnProxy w M).1) := by
  intro p hp
  unfold spawnProxy at hp
  simp only [insertAL, List.mem_cons] at hp
  cases hp with
  | inl he => exact ⟨M.sid, w.nextProxyId, by rw [he]⟩
  | inr hm => exact h _ (List.mem_filter.1 hm).1

/-- C3 is violated by the code: `get_recipient` stores
`Box::new(addr.clone())`, a lone `Addr<Unsync, _>` (world.rs line 113), but
the memoization lookup downcasts to the pair type
`(Addr<Unsync, _>, Addr<Syn, _>)` (lines 103-104), which never matches; so
from any state the code can reach, every call — in particular the second
call for the same type — spawns a fresh `RecipientProxy` (ids
`nextProxyId` and `nextProxyId + 1`) instead of reusing the memoized one. -/
theorem get_recipient_never_memoizes (w : World) (M : MsgType)
    (h : UnsyncStored w) :
    (get_recipient w M).2 = w.nextProxyId ∧
    (get_recipient ((get_recipient w M).1) M).2 = w.nextProxyId + 1 := by
  have h1 := get_recipient_eq_spawn w M h
  have h2 := get_recipient_eq_spawn ((get_recipient w M).1) M
    (by rw [h1]; exact spawnProxy_unsyncStored w M h)
  rw [h1] at h2 ⊢
  rw [h2]
  exact ⟨rfl, rfl⟩

/-- C3 witness: on the fresh world, two `get_recipient` calls for the same
message type are backed by the distinct proxies `0` and `1`. -/
theorem get_recipient_never_memoizes_witness :
    (get_recipient world0 ⟨"Ping", 0⟩).2 = 0 ∧
    (get_recipient ((get_recipient world0 ⟨"Ping", 0⟩).1) ⟨"Ping", 0⟩).2 = 1 :=
  get_recipient_never_memoizes world0 ⟨"Ping", 0⟩
    (by intro p hp; simp [world0] at hp)

/-- C2 counterexample: on `mismatchWorld` the slot for type id `"T"` stores
a proxy created for structural type `0` (proxy actor `5`); requesting a
recipient for the structurally different type `⟨"T", 1⟩` makes the typed
downcast fail, and the call, far from failing fast, silently replaces the
memoized slot with a freshly spawned proxy (actor `6`). -/
theorem typeMismatch_failfast_counterexample :
    lookupAL mismatchWorld.recipients "T"
      = some ⟨AnyBox.mk (RtType.unsyncAddr 0) 5, 5⟩ ∧
    downcast_ref (AnyBox.mk (RtType.unsyncAddr 0) 5) (RtType.pairAddr 1) = none ∧
    lookupAL ((get_recipient mismatchWorld ⟨"T", 1⟩).1).recipients "T"
      = some ⟨AnyBox.mk (RtType.unsyncAddr 1) 6, 6⟩ ∧
    (⟨AnyBox.mk (RtType.unsyncAddr 1) 6, 6⟩ : ProxyR)
      ≠ ⟨AnyBox.mk (RtType.unsyncAddr 0) 5, 5⟩ := by
  decide

/-- C2 (amended): when a recipient slot is already memoized under `M`'s
type id but the typed downcast of its stored proxy fails, `get_recipient`
does not fail fast: it silently spawns a fresh, correctly-typed proxy,
replaces the existing slot with it, and returns a handle backed by the new
proxy (so it never routes through the mismatched stored proxy). -/
theorem typeMismatch_replaces_slot (w : World) (M : MsgType) (info : ProxyR)
    (h1 : lookupAL w.recipients M.tid = some info)
    (h2 : downcast_ref info.addr (RtType.pairAddr M.sid) = none) :
    (get_recipient w M).2 = w.nextProxyId ∧
    lookupAL ((get_recipient w M).1).recipients M.tid
      = some ⟨AnyBox.mk (RtType.unsyncAddr M.sid) w.nextProxyId, w.nextProxyId⟩ ∧
    (info.addr.proxyId ≠ w.nextProxyId →
      (get_recipient w M).2 ≠ info.addr.proxyId) := by
  have hs : get_recipient w M = spawnProxy w M := by
    unfold get_recipient
    rw [h1]
    show (match downcast_ref info.addr (RtType.pairAddr M.sid) with
          | some pid => (w, pid)
          | none => spawnProxy w M) = spawnProxy w M
    rw [h2]
  rw [hs]
  unfold spawnProxy
  exact ⟨rfl, lookupAL_insertAL_self _ _ _, fun hne => Ne.symm hne⟩

/-- C2 witness: the amended behaviour at the concrete mismatched slot of
`mismatchWorld`: the call is backed by the freshly spawned proxy `6`. -/
theorem typeMismatch_replaces_slot_witness :
    (get_recipient mismatchWorld ⟨"T", 1⟩).2 = 6 :=
  (typeMismatch_replaces_slot mismatchWorld ⟨"T", 1⟩
    ⟨AnyBox.mk (RtType.unsyncAddr 0) 5, 5⟩ (by decide) (by decide)).1

/-! ## C5, C7: the type capability registry -/

theorem mem_addSupport (ts : List (String × List String)) (node tp t n : String) :
    n ∈ (lookupAL (addSupport ts node tp) t).getD [] ↔
      (n ∈ (lookupAL ts t).getD [] ∨ (t = tp ∧ n = node)) := by
  unfold addSupport
  by_cases htp : t = tp
  · subst htp
    rw [lookupAL_insertAL_self]
    simp only [Option.getD_some]
    rw [mem_insertSet]
    tauto
  · rw [lookupAL_insertAL_ne _ _ _ _ htp]
    tauto

theorem mem_registerTypes (ts : List (String × List String)) (node : String)
    (tps : List String) (t n : String) :
    n ∈ (lookupAL (tps.foldl (fun ts tp => addSupport ts node tp) ts) t).getD [] ↔
      (n ∈ (lookupAL ts t).getD [] ∨ (t ∈ tps ∧ n = node)) := by
  induction tps generalizing ts with
  | nil => simp
  | cons tp rest ih =>
    rw [List.foldl_cons, ih, mem_addSupport]
    simp only [List.mem_cons]
    tauto

/-- The state the `NodeSupportedTypes` handler leaves behind: only `types`
changes, by registering every announced pair (world.rs lines 259-264). -/
theorem handleNodeSupportedTypes_fst (w : World) (m : NodeSupportedTypes) :
    (handleNodeSupportedTypes w m).1 = supportersUpdate w m := by
  unfold handleNodeSupportedTypes
  cases lookupAL w.nodes m.node <;> rfl

/-- C5: after any sequence of `NodeSupportedTypes` announcements, the
supporter set of each type id holds exactly its initial members plus every
node that announced that type — i.e. the union of all announced
`(node, type)` pairs. The union characterization does not depend on the
order of the list, so repeated or reordered announcement sequences
(same announcements delivered) converge to the same supporter sets. -/
theorem type_support_convergence (w : World) (anns : List NodeSupportedTypes)
    (tp n : String) :
    (n ∈ supporters (applyAnnouncements w anns) tp ↔
      (n ∈ supporters w tp ∨ ∃ a ∈ anns, tp ∈ a.types ∧ a.node = n)) ∧
    (∀ anns' : List NodeSupportedTypes, (∀ a, a ∈ anns ↔ a ∈ anns') →
      (n ∈ supporters (applyAnnouncements w anns) tp ↔
        n ∈ supporters (applyAnnouncements w anns') tp)) := by
  have key : ∀ (anns : List NodeSupportedTypes) (w : World),
      n ∈ supporters (applyAnnouncements w anns) tp ↔
        (n ∈ supporters w tp ∨ ∃ a ∈ anns, tp ∈ a.types ∧ a.node = n) := by
    intro anns
    induction anns with
    | nil => intro w; simp [applyAnnouncements]
    | cons a rest ih =>
      intro w
      have hstep : applyAnnouncements w (a :: rest) =
          applyAnnouncements ((handleNodeSupportedTypes w a).1) rest := rfl
      rw [hstep, ih]
      have hsup : ∀ t n', n' ∈ supporters ((handleNodeSupportedTypes w a).1) t ↔
          (n' ∈ supporters w t ∨ (t ∈ a.types ∧ n' = a.node)) := by
        intro t n'
        unfold supporters
        rw [handleNodeSupportedTypes_fst]
        unfold supportersUpdate
        exact mem_registerTypes w.types a.node a.types t n'
      rw [hsup]
      simp only [List.mem_cons]
      constructor
      · rintro ((hw | ⟨htp, hn⟩) | ⟨b, hb, hbt, hbn⟩)
        · exact Or.inl hw
        · exact Or.inr ⟨a, Or.inl rfl, htp, hn.symm⟩
        · exact Or.inr ⟨b, Or.inr hb, hbt, hbn⟩
      · rintro (hw | ⟨b, (rfl | hb), hbt, hbn⟩)
        · exact Or.inl (Or.inl hw)
        · exact Or.inl (Or.inr ⟨hbt, hbn.symm⟩)
        · exact Or.inr ⟨b, hb, hbt, hbn⟩
  refine ⟨key anns w, ?_⟩
  intro anns' hsame
  rw [key anns w, key anns' w]
  constructor
  · rintro (hw | ⟨b, hb, hrest⟩)
    · exact Or.inl hw
    · exact Or.inr ⟨b, (hsame b).1 hb, hrest⟩
  · rintro (hw | ⟨b, hb, hrest⟩)
    · exact Or.inl hw
    · exact Or.inr ⟨b, (hsame b).2 hb, hrest⟩

/-- C7: when `NodeSupportedTypes(node, types)` is handled while no live
node handle exists for `node`, the supporter sets are still updated for
every announced type, yet no `TypeSupported` notification is delivered to
any recipient proxy; while from a state where a handle for `node` and a
recipient slot for an announced type do exist, the same announcement does
deliver the notification to that slot's proxy service. -/
theorem stale_announcement_skip (w : World) (m : NodeSupportedTypes)
    (h : lookupAL w.nodes m.node = none) :
    (handleNodeSupportedTypes w m).2 = [] ∧
    (∀ tp ∈ m.types, m.node ∈ supporters ((handleNodeSupportedTypes w m).1) tp) ∧
    (∀ (w2 : World) (nh : Nat) (tp : String) (p : ProxyR),
      lookupAL w2.nodes m.node = some nh → tp ∈ m.types →
      lookupAL w2.recipients tp = some p →
      (p.service, TypeSupported.mk tp m.node nh) ∈ (handleNodeSupportedTypes w2 m).2) := by
  refine ⟨?_, ?_, ?_⟩
  · unfold handleNodeSupportedTypes
    rw [h]
  · intro tp htp
    unfold supporters
    rw [handleNodeSupportedTypes_fst]
    unfold supportersUpdate
    exact (mem_registerTypes w.types m.node m.types tp m.node).2
      (Or.inr ⟨htp, rfl⟩)
  · intro w2 nh tp p hn2 htp hp2
    unfold handleNodeSupportedTypes
    rw [hn2]
    apply List.mem_filterMap.2
    refine ⟨tp, htp, ?_⟩
    rw [hp2]
    rfl

/-- C7 witness: announcing `("peer-a", ["Ping"])` on the fresh world (no
node handle for `"peer-a"`) delivers no notification. -/
theorem stale_announcement_skip_witness :
    (handleNodeSupportedTypes world0 ⟨"peer-a", ["Ping"]⟩).2 = [] :=
  (stale_announcement_skip world0 ⟨"peer-a", ["Ping"]⟩ (by decide)).1

/-! ## C6: the bind contract -/

theorem bindFold_succ (outs : List BindOutcome) (w : World)
    (err : Option String) (s : Bool) :
    (outs.foldl bindStep (w, err, s)).2.2 = (s || outs.any BindOutcome.isOk) := by
  induction outs generalizing w err s with
  | nil => simp
  | cons o rest ih =>
    cases o with
    | ok la =>
      rw [List.foldl_cons]
      show (rest.foldl bindStep
        ({ w with sockets := insertAL w.sockets la la }, err, true)).2.2 = _
      rw [ih]
      simp [BindOutcome.isOk]
    | fail e =>
      rw [List.foldl_cons]
      show (rest.foldl bindStep (w, some e, s)).2.2 = _
      rw [ih]
      simp [BindOutcome.isOk]

theorem lastBindError_cons (o : BindOutcome) (rest : List BindOutcome) :
    lastBindError (o :: rest) =
      (match lastBindError rest with
       | some e => some e
       | none => match o with
                 | BindOutcome.fail e => some e
                 | BindOutcome.ok _ => none) := rfl

theorem bindFold_err (outs : List BindOutcome) (w : World)
    (err : Option String) (s : Bool) :
    (outs.foldl bindStep (w, err, s)).2.1 =
      (match lastBindError outs with
       | some e => some e
       | none => err) := by
  induction outs generalizing w err s with
  | nil => rfl
  | cons o rest ih =>
    rw [lastBindError_cons]
    cases o with
    | ok la =>
      rw [List.foldl_cons]
      show (rest.foldl bindStep
        ({ w with sockets := insertAL w.sockets la la }, err, true)).2.1 = _
      rw [ih]
      cases lastBindError rest <;> rfl
    | fail e =>
      rw [List.foldl_cons]
      show (rest.foldl bindStep (w, some e, s)).2.1 = _
      rw [ih]
      cases lastBindError rest <;> rfl

theorem bindFold_sockets_mono (outs : List BindOutcome) (w : World)
    (err : Option String) (s : Bool) (la : Nat)
    (h : lookupAL w.sockets la = some la) :
    lookupAL (outs.foldl bindStep (w, err, s)).1.sockets la = some la := by
  induction outs generalizing w err s with
  | nil => exact h
  | cons o rest ih =>
    cases o with
    | ok la' =>
      rw [List.foldl_cons]
      show lookupAL (rest.foldl bindStep
        ({ w with sockets := insertAL w.sockets la' la' }, err, true)).1.sockets la = some la
      apply ih
      by_cases hla : la = la'
      · rw [hla]
        exact lookupAL_insertAL_self _ _ _
      · rw [lookupAL_insertAL_ne _ _ _ _ hla]
        exact h
    | fail e =>
      rw [List.foldl_cons]
      exact ih _ _ _ h

theorem bindFold_sockets (outs : List BindOutcome) (w : World)
    (err : Option String) (s : Bool) (la : Nat)
    (h : BindOutcome.ok la ∈ outs) :
    lookupAL (outs.foldl bindStep (w, err, s)).1.sockets la = some la := by
  induction outs generalizing w err s with
  | nil => simp at h
  | cons o rest ih =>
    rw [List.foldl_cons]
    cases o with
    | ok la' =>
      show lookupAL (rest.foldl bindStep
        ({ w with sockets := insertAL w.sockets la' la' }, err, true)).1.sockets la
          = some la
      rcases List.mem_cons.1 h with heq | hmem
      · cases heq
        exact bindFold_sockets_mono rest _ _ _ _ (lookupAL_insertAL_self _ _ _)
      · exact ih _ _ _ hmem
    | fail e =>
      show lookupAL (rest.foldl bindStep (w, some e, s)).1.sockets la = some la
      rcases List.mem_cons.1 h with heq | hmem
      · exact absurd heq (by simp)
      · exact ih _ _ _ hmem

/-- C6: `bind` returns `Ok` exactly when at least one address bound
(partial failure is not an error), and then the accumulated socket map
holds every successfully bound listener under its local address; it
returns `Err` only when every attempt failed, surfacing the last recorded
bind error, or the generic "Can not bind to address." error when no
individual error was recorded. -/
theorem bind_contract (w : World) (outs : List BindOutcome) :
    ((∃ w', bind w outs = Except.ok w') ↔ ∃ o ∈ outs, o.isOk = true) ∧
    ((∀ o ∈ outs, o.isOk = false) →
      bind w outs = Except.error
        ((lastBindError outs).getD "Can not bind to address.")) ∧
    (∀ la, BindOutcome.ok la ∈ outs →
      ∃ w', bind w outs = Except.ok w' ∧ lookupAL w'.sockets la = some la) := by
  have hsucc := bindFold_succ outs w none false
  have herr := bindFold_err outs w none false
  rw [Bool.false_or] at hsucc
  have hfinish : ∀ (w1 : World) (e : Option String),
      bindFinish (w1, e, false) = Except.error (e.getD "Can not bind to address.") := by
    intro w1 e
    cases e <;> rfl
  have hbind : bind w outs = bindFinish ((outs.foldl bindStep (w, none, false)).1,
      (outs.foldl bindStep (w, none, false)).2.1, outs.any BindOutcome.isOk) := by
    rw [← hsucc]
    rfl
  refine ⟨⟨?_, ?_⟩, ?_, ?_⟩
  · rintro ⟨w', hw'⟩
    by_cases hany : outs.any BindOutcome.isOk = true
    · exact List.any_eq_true.1 hany
    · rw [Bool.not_eq_true] at hany
      rw [hbind, hany, hfinish] at hw'
      exact absurd hw' (by simp)
  · rintro ⟨o, ho, hok⟩
    rw [hbind, List.any_eq_true.2 ⟨o, ho, hok⟩]
    exact ⟨_, rfl⟩
  · intro hall
    have hany : outs.any BindOutcome.isOk = false := by
      rw [Bool.eq_false_iff]
      intro hc
      obtain ⟨o, ho, hok⟩ := List.any_eq_true.1 hc
      rw [hall o ho] at hok
      exact Bool.false_ne_true hok
    rw [hbind, hany, hfinish, herr]
    cases lastBindError outs <;> rfl
  · intro la hla
    have hany : outs.any BindOutcome.isOk = true :=
      List.any_eq_true.2 ⟨BindOutcome.ok la, hla, rfl⟩
    refine ⟨(outs.foldl bindStep (w, none, false)).1, ?_, ?_⟩
    · rw [hbind, hany]
      rfl
    · exact bindFold_sockets outs w none false la hla

/-! ## C9: no duplicate connection ids -/

/-- In both hit and miss cases `get_recipient` either leaves the world
unchanged or passes through `spawnProxy`. -/
theorem get_recipient_fst_cases (w : World) (M : MsgType) :
    (get_recipient w M).1 = w ∨ (get_recipient w M).1 = (spawnProxy w M).1 := by
  unfold get_recipient
  cases lookupAL w.recipients M.tid with
  | none => exact Or.inr rfl
  | some info =>
    show ((match downcast_ref info.addr (RtType.pairAddr M.sid) with
           | some pid => (w, pid)
           | none => spawnProxy w M) : World × Nat).1 = w ∨
         ((match downcast_ref info.addr (RtType.pairAddr M.sid) with
           | some pid => (w, pid)
           | none => spawnProxy w M) : World × Nat).1 = (spawnProxy w M).1
    cases downcast_ref info.addr (RtType.pairAddr M.sid) with
    | none => exact Or.inr rfl
    | some pid => exact Or.inl rfl

/-- No handler decreases the connection-id counter `wid`; only the accept
handler increases it. -/
theorem wid_le_step (w : World) (e : Event) : w.wid ≤ (step w e).wid := by
  cases e with
  | connect => exact Nat.le_succ _
  | workerDisc c => exact Nat.le_refl _
  | nodeConn n =>
    show w.wid ≤ (handleNodeConnected w n).1.wid
    cases hl : lookupAL w.nodes n with
    | some hd => rw [handleNodeConnected_hit w n hd hl]
    | none => rw [handleNodeConnected_miss w n hl]
  | nodeTypes m =>
    show w.wid ≤ (handleNodeSupportedTypes w m).1.wid
    rw [handleNodeSupportedTypes_fst]
    exact Nat.le_refl _
  | provideRecipient m => exact Nat.le_refl _
  | getRecipient M =>
    show w.wid ≤ (get_recipient w M).1.wid
    rcases get_recipient_fst_cases w M with h | h <;> rw [h]
    exact Nat.le_refl _
  | signal =>
    show w.wid ≤ (stop w).wid
    unfold stop
    by_cases h1 : w.exit
    · rw [if_pos h1]
    · rw [if_neg h1]
      by_cases h2 : w.workers = []
      · rw [if_pos h2]
      · rw [if_neg h2]
  | stopConfirm c =>
    show w.wid ≤ (stopConfirm w c).wid
    unfold stopConfirm
    by_cases h1 : c ∈ w.pending
    · rw [if_pos h1]
      by_cases h2 : eraseAL w.workers c = []
      · rw [if_pos h2]
      · rw [if_neg h2]
    · rw [if_neg h1]

theorem assignedId_eq (w : World) (e : Event) (x : Nat)
    (h : assignedId w e = some x) :
    x = w.wid + 1 ∧ (step w e).wid = w.wid + 1 := by
  cases e <;> simp [assignedId] at h
  exact ⟨h.symm, rfl⟩

theorem traceIds_gt (w : World) (es : List Event) :
    ∀ x ∈ traceIds w es, w.wid < x := by
  induction es generalizing w with
  | nil => intro x hx; simp [traceIds] at hx
  | cons e rest ih =>
    intro x hx
    rw [show traceIds w (e :: rest)
        = (assignedId w e).toList ++ traceIds (step w e) rest from rfl] at hx
    rcases List.mem_append.1 hx with h1 | h2
    · cases ha : assignedId w e with
      | none => rw [ha] at h1; simp [Option.toList] at h1
      | some y =>
        rw [ha] at h1
        simp only [Option.toList, List.mem_singleton] at h1
        subst h1
        have := (assignedId_eq w e x ha).1
        omega
    · exact lt_of_le_of_lt (wid_le_step w e) (ih _ x h2)

theorem traceIds_pairwise (w : World) (es : List Event) :
    (traceIds w es).Pairwise (· < ·) := by
  induction es generalizing w with
  | nil => exact List.Pairwise.nil
  | cons e rest ih =>
    rw [show traceIds w (e :: rest)
        = (assignedId w e).toList ++ traceIds (step w e) rest from rfl]
    cases ha : assignedId w e with
    | none => simpa [Option.toList] using ih (step w e)
    | some y =>
      simp only [Option.toList, List.singleton_append]
      refine List.Pairwise.cons ?_ (ih (step w e))
      intro x hx
      have hgt := traceIds_gt (step w e) rest x hx
      obtain ⟨hy, hw⟩ := assignedId_eq w e y ha
      omega

/-- C9: across any event trace handled by one coordinator instance, the
connection ids assigned to successively accepted inbound connections are
strictly increasing, hence no two accepted connections ever receive the
same connection id. -/
theorem no_duplicate_connection_ids (w : World) (es : List Event) :
    (traceIds w es).Pairwise (· < ·) ∧ (traceIds w es).Nodup :=
  ⟨traceIds_pairwise w es,
   (traceIds_pairwise w es).imp (fun h => Nat.ne_of_lt h)⟩

/-! ## C1: drain completeness -/

/-- One drain continuation preserves "terminating exactly when the worker
map is empty". -/
theorem stopConfirm_inv (w : World) (c : Nat)
    (h : w.terminating = true ↔ w.workers = []) :
    (stopConfirm w c).terminating = true ↔ (stopConfirm w c).workers = [] := by
  unfold stopConfirm
  by_cases hc : c ∈ w.pending
  · rw [if_pos hc]
    by_cases he : eraseAL w.workers c = []
    · rw [if_pos he]
      exact ⟨fun _ => he, fun _ => rfl⟩
    · rw [if_neg he]
      constructor
      · intro ht
        have hw : w.workers = [] := h.1 ht
        exact absurd (show eraseAL w.workers c = [] by rw [hw]; rfl) he
      · intro hwe
        exact absurd hwe he
  · rw [if_neg hc]
    exact h

theorem processConfirms_inv (w : World) (cs : List Nat)
    (h : w.terminating = true ↔ w.workers = []) :
    (processConfirms w cs).terminating = true ↔
      (processConfirms w cs).workers = [] := by
  induction cs generalizing w with
  | nil => exact h
  | cons c rest ih => exact ih _ (stopConfirm_inv w c h)

/-- C1: delivering a termination signal to a not-yet-exiting coordinator:
with an empty worker map it transitions to Terminating (scheduling process
exit) immediately; with `k` registered workers it sends each of them a stop
instruction (one pending completion per registered worker) without
terminating yet, and from then on, after any sequence of stop completions,
the coordinator is in Terminating exactly when every worker has been
removed from the worker map — never while any worker handle remains. -/
theorem drain_completeness (w : World) (cs : List Nat)
    (h1 : w.exit = false) (h2 : w.terminating = false) :
    (w.workers = [] → (stop w).terminating = true) ∧
    (w.workers ≠ [] →
      (stop w).pending = w.workers.map Prod.fst ∧
      (stop w).workers = w.workers ∧
      (stop w).terminating = false) ∧
    ((processConfirms (stop w) cs).terminating = true ↔
      (processConfirms (stop w) cs).workers = []) := by
  have hstop : stop w = if w.workers = []
      then { w with exit := true, terminating := true }
      else { w with exit := true, pending := w.workers.map Prod.fst } := by
    unfold stop
    rw [h1]
    simp
  refine ⟨?_, ?_, ?_⟩
  · intro hw
    rw [hstop, if_pos hw]
  · intro hw
    rw [hstop, if_neg hw]
    exact ⟨rfl, rfl, h2⟩
  · refine processConfirms_inv _ cs ?_
    by_cases hw : w.workers = []
    · rw [hstop, if_pos hw]
      exact ⟨fun _ => hw, fun _ => rfl⟩
    · rw [hstop, if_neg hw]
      constructor
      · intro ht
        exact absurd (h2 ▸ ht) (by simp)
      · intro hwe
        exact absurd hwe hw

/-- C1 witness: on a world with one registered worker (id 1), the drain
with the single stop completion for worker 1 reaches Terminating. -/
theorem drain_completeness_witness :
    (processConfirms (stop drainWorld) [1]).terminating = true :=
  (drain_completeness drainWorld [1] (by decide) (by decide)).2.2.mpr (by decide)

end ActixRemote
